import Mathlib

/-!
# Verification of the trial-division primality checker

This file embeds the repository's `is_prime` function (src/sample.py) and its
driver loop into Lean 4 and proves the specified properties about them.

The Python function:

```
def is_prime(n):
    if n <= 1:
        return False
    if n <= 3:
        return True
    if n % 2 == 0 or n % 3 == 0:
        return False
    i = 5
    while i * i <= n:
        if n % i == 0 or n % (i + 2) == 0:
            return False
        i += 6
    return True
```

Python integers are unbounded, so the input type is `Int`.  Python's `%`
with a positive right operand returns a non-negative remainder, exactly as
Lean's `Int.emod` (the `%` of `Int`) does; every `%` in the function has a
positive right operand (2, 3, `i ≥ 5`, `i + 2 ≥ 7`), so `%` on `Int` is a
faithful translation.
-/

namespace Sample

/-- The `while i * i <= n` loop of `is_prime`, with loop variable `i`
starting from the caller's value: tests `i` and `i + 2` as divisors and
steps `i` by 6 while `i * i ≤ n`. -/
def trialLoop (n i : Int) : Bool :=
  if h : i * i ≤ n then
    if n % i = 0 ∨ n % (i + 2) = 0 then false
    else trialLoop n (i + 6)
  else true
termination_by (n + 6 - i).toNat
decreasing_by
  have hin : i ≤ n := by
    rcases le_or_lt 1 i with h1 | h1
    · nlinarith
    · have : (0:Int) ≤ i * i := mul_self_nonneg i
      omega
  omega

/-- Direct translation of `is_prime` from src/sample.py. -/
def is_prime (n : Int) : Bool :=
  if n ≤ 1 then false
  else if n ≤ 3 then true
  else if n % 2 = 0 ∨ n % 3 = 0 then false
  else trialLoop n 5

/-- Same control structure as `is_prime`, but with the trial-division loop
abstracted as a parameter `L`.  `is_prime = is_primeWithLoop trialLoop`
holds definitionally; quantifying over `L` expresses that a branch's result
is decided before the loop contributes anything. -/
def is_primeWithLoop (L : Int → Int → Bool) (n : Int) : Bool :=
  if n ≤ 1 then false
  else if n ≤ 3 then true
  else if n % 2 = 0 ∨ n % 3 = 0 then false
  else L n 5

/-- Number of times the body of the `while` loop of `is_prime` executes
when started at loop variable `i` (it mirrors `trialLoop` step for step,
counting one for each iteration entered). -/
def trialLoopIters (n i : Int) : Nat :=
  if h : i * i ≤ n then
    if n % i = 0 ∨ n % (i + 2) = 0 then 1
    else trialLoopIters n (i + 6) + 1
  else 0
termination_by (n + 6 - i).toNat
decreasing_by
  have hin : i ≤ n := by
    rcases le_or_lt 1 i with h1 | h1
    · nlinarith
    · have : (0:Int) ≤ i * i := mul_self_nonneg i
      omega
  omega

/-- Instrumented translation of the `%` operation: Python's `%` raises
`ZeroDivisionError` when the right operand is zero, so the checked version
returns `none` exactly there and `some (a % b)` otherwise. -/
def emodChecked (a b : Int) : Option Int :=
  if b = 0 then none else some (a % b)

/-- The loop of `is_prime`, with every `%` replaced by its fallible checked
version; any division by zero propagates as `none`. -/
def trialLoopChecked (n i : Int) : Option Bool :=
  if h : i * i ≤ n then
    match emodChecked n i, emodChecked n (i + 2) with
    | some r₁, some r₂ =>
        if r₁ = 0 ∨ r₂ = 0 then some false
        else trialLoopChecked n (i + 6)
    | _, _ => none
  else some true
termination_by (n + 6 - i).toNat
decreasing_by
  have hin : i ≤ n := by
    rcases le_or_lt 1 i with h1 | h1
    · nlinarith
    · have : (0:Int) ≤ i * i := mul_self_nonneg i
      omega
  omega

/-- `is_prime` with every `%` replaced by its fallible checked version:
returns `none` if any operation the Python code performs could raise. -/
def is_primeChecked (n : Int) : Option Bool :=
  if n ≤ 1 then some false
  else if n ≤ 3 then some true
  else
    match emodChecked n 2, emodChecked n 3 with
    | some r₂, some r₃ =>
        if r₂ = 0 ∨ r₃ = 0 then some false
        else trialLoopChecked n 5
    | _, _ => none

/-- The loop-variable values at which the `while` guard of `is_prime` is
evaluated, for a run started at `i = 5`: the guard is evaluated at 5, and
whenever it is evaluated at `i`, holds, and neither `i` nor `i + 2`
divides `n`, it is evaluated again at `i + 6`. -/
inductive LoopReaches (n : Int) : Int → Prop
  | start : LoopReaches n 5
  | step {i : Int} : LoopReaches n i → i * i ≤ n →
      n % i ≠ 0 → n % (i + 2) ≠ 0 → LoopReaches n (i + 6)

/-- Plain trial division as the spec describes it ("a primality test that
checks divisibility by candidate divisors up to `sqrt(n)`"): `true` iff no
`d` with `2 ≤ d ≤ sqrt n` — equivalently `2 ≤ d` and `d * d ≤ n`, the form
the spec itself uses for the loop bound — divides `n` evenly.  The extra
bound `d ≤ n` is redundant (any `d ≥ 2` with `d * d ≤ n` has `d ≤ n`) and
present only to make the quantifier decidable; the `sqrt` phrasing is
recovered in `naiveTrialDivision_eq_true_iff`.  This is the reference
algorithm written from the spec's words, to be compared with `trialLoop`. -/
def naiveTrialDivision (n : Int) : Bool :=
  decide (∀ d : Nat, d ≤ n.toNat → 2 ≤ d → d * d ≤ n.toNat → n.toNat % d ≠ 0)

/-- The driver loop of src/sample.py: for `num` in `range(1, 20)`, one
line per value, `"{num} is prime"` or `"{num} is not prime"`. -/
def driverLines : List String :=
  (List.range' 1 19).map fun num =>
    if is_prime num then toString num ++ " is prime"
    else toString num ++ " is not prime"

/-- Any divisor of `n` in the window `[i, i + 6)` is `i` or `i + 2`, when
`i ≡ 5 [ZMOD 6]` and `n` is not divisible by 2 or 3: the other four
positions of the window are divisible by 2 or by 3. -/
lemma window_dvd {n i d : Int} (h2 : ¬ (2:Int) ∣ n) (h3 : ¬ (3:Int) ∣ n)
    (hi : i % 6 = 5) (hld : i ≤ d) (hud : d < i + 6) (hdvd : d ∣ n) :
    d = i ∨ d = i + 2 := by
  by_contra hne
  push_neg at hne
  have hcase : (2:Int) ∣ d ∨ (3:Int) ∣ d := by omega
  rcases hcase with h | h
  · exact h2 (h.trans hdvd)
  · exact h3 (h.trans hdvd)

/-- Extending the "no divisor below `i`" invariant across one loop step:
if neither `i` nor `i + 2` divides `n`, there is no divisor below `i + 6`. -/
lemma below_extend {n i : Int} (h2 : ¬ (2:Int) ∣ n) (h3 : ¬ (3:Int) ∣ n)
    (hi6 : i % 6 = 5) (hbelow : ∀ d : Int, 2 ≤ d → d < i → ¬ d ∣ n)
    (hndi : n % i ≠ 0) (hndi2 : n % (i + 2) ≠ 0) :
    ∀ d : Int, 2 ≤ d → d < i + 6 → ¬ d ∣ n := by
  intro e he2 helt hedvd
  rcases lt_or_le e i with h | h
  · exact hbelow e he2 h hedvd
  · rcases window_dvd h2 h3 hi6 h helt hedvd with rfl | rfl
    · exact hndi (Int.emod_eq_zero_of_dvd hedvd)
    · exact hndi2 (Int.emod_eq_zero_of_dvd hedvd)

/-- The candidates 2, 3 and 4 never divide an `n` that survived the `% 2`
and `% 3` checks, so the loop's invariant holds on entry at `i = 5`. -/
lemma no_div_below_five {n : Int} (h2 : ¬ (2:Int) ∣ n) (h3 : ¬ (3:Int) ∣ n) :
    ∀ d : Int, 2 ≤ d → d < 5 → ¬ d ∣ n := by
  intro d hd2 hd5 hdvd
  interval_cases d
  · exact h2 hdvd
  · exact h3 hdvd
  · exact h2 ((by decide : (2:Int) ∣ 4).trans hdvd)

/-- If the loop, started at `i` with no divisor of `n` below `i`, returns
`true`, then `n` has no divisor `d` with `2 ≤ d` and `d * d ≤ n`. -/
lemma trialLoop_true_no_div {n : Int} (h2 : ¬ (2:Int) ∣ n) (h3 : ¬ (3:Int) ∣ n) :
    ∀ k : Nat, ∀ i : Int, (n + 6 - i).toNat = k → 5 ≤ i → i % 6 = 5 →
      (∀ d : Int, 2 ≤ d → d < i → ¬ d ∣ n) → trialLoop n i = true →
      ∀ d : Int, 2 ≤ d → d * d ≤ n → ¬ d ∣ n := by
  intro k
  induction k using Nat.strong_induction_on with
  | _ k IH =>
    intro i hk hi5 hi6 hbelow htrue d hd2 hdsq hdvd
    rw [trialLoop] at htrue
    split at htrue
    · rename_i hguard
      split at htrue
      · exact absurd htrue (by simp)
      · rename_i hnd
        push_neg at hnd
        have hin : i ≤ n := by nlinarith
        exact IH (n + 6 - (i + 6)).toNat (by omega) (i + 6) rfl (by omega)
          (by omega) (below_extend h2 h3 hi6 hbelow hnd.1 hnd.2) htrue d hd2 hdsq hdvd
    · rename_i hguard
      rcases lt_or_le d i with h | h
      · exact hbelow d hd2 h hdvd
      · have : i * i ≤ d * d := by nlinarith
        exact hguard (by linarith)

/-- If the loop, started at some `i ≥ 5`, returns `false`, then `n` has a
nontrivial divisor. -/
lemma trialLoop_false_div (n : Int) :
    ∀ k : Nat, ∀ i : Int, (n + 6 - i).toNat = k → 5 ≤ i →
      trialLoop n i = false → ∃ d : Int, 2 ≤ d ∧ d < n ∧ d ∣ n := by
  intro k
  induction k using Nat.strong_induction_on with
  | _ k IH =>
    intro i hk hi5 hfalse
    rw [trialLoop] at hfalse
    split at hfalse
    · rename_i hguard
      split at hfalse
      · rename_i hdd
        rcases hdd with h | h
        · exact ⟨i, by omega, by nlinarith, Int.dvd_of_emod_eq_zero h⟩
        · exact ⟨i + 2, by omega, by nlinarith, Int.dvd_of_emod_eq_zero h⟩
      · have hin : i ≤ n := by nlinarith
        exact IH (n + 6 - (i + 6)).toNat (by omega) (i + 6) rfl (by omega) hfalse
    · exact absurd hfalse (by simp)

/-- If `n > 1` has no divisor `d` with `2 ≤ d` and `d * d ≤ n`, it has no
divisor `d` with `2 ≤ d < n` at all: the cofactor of a large divisor is a
small one. -/
lemma no_small_div_imp {n : Int} (hn : 1 < n)
    (h : ∀ d : Int, 2 ≤ d → d * d ≤ n → ¬ d ∣ n) :
    ∀ d : Int, 2 ≤ d → d < n → ¬ d ∣ n := by
  intro d hd2 hdn hdvd
  obtain ⟨c, hc⟩ := hdvd
  have hc0 : 0 < c := by nlinarith
  rcases le_or_lt (d * d) n with hle | hlt
  · exact h d hd2 hle ⟨c, hc⟩
  · have hcd : c < d := by nlinarith
    have hc2 : 2 ≤ c := by
      rcases (by omega : c = 1 ∨ 2 ≤ c) with h1 | h1
      · rw [h1, mul_one] at hc
        omega
      · exact h1
    have hcc : c * c ≤ n := by nlinarith
    exact h c hc2 hcc ⟨d, by rw [hc]; ring⟩

/-- The run of the loop of `is_prime` decides exactly "`n` has no
divisor `d` with `2 ≤ d < n`". -/
lemma trialLoop_true_iff {n : Int} (hn : 3 < n)
    (h2 : ¬ (2:Int) ∣ n) (h3 : ¬ (3:Int) ∣ n) :
    trialLoop n 5 = true ↔ ∀ d : Int, 2 ≤ d → d < n → ¬ d ∣ n := by
  constructor
  · intro htrue
    exact no_small_div_imp (by omega)
      (trialLoop_true_no_div h2 h3 _ 5 rfl (by norm_num) (by norm_num)
        (no_div_below_five h2 h3) htrue)
  · intro hnd
    by_contra hne
    rw [Bool.not_eq_true] at hne
    obtain ⟨d, hd2, hdn, hdvd⟩ := trialLoop_false_div n _ 5 rfl (by norm_num) hne
    exact hnd d hd2 hdn hdvd

/-- `naiveTrialDivision` decides exactly "`n` has no divisor `d` with
`2 ≤ d` and `d * d ≤ n`", stated over `Int` divisors. -/
lemma naiveTrialDivision_true_iff {n : Int} (hn : 0 ≤ n) :
    naiveTrialDivision n = true ↔
      ∀ d : Int, 2 ≤ d → d * d ≤ n → ¬ d ∣ n := by
  have hcast : ((n.toNat : Int)) = n := Int.toNat_of_nonneg hn
  rw [naiveTrialDivision, decide_eq_true_iff]
  constructor
  · intro h d hd2 hdsq hdvd
    have hd0 : 0 ≤ d := by omega
    obtain ⟨m, rfl⟩ : ∃ m : Nat, (m : Int) = d := ⟨d.toNat, Int.toNat_of_nonneg hd0⟩
    have hm2 : 2 ≤ m := by exact_mod_cast hd2
    have hmsq : m * m ≤ n.toNat := by
      have : ((m * m : Nat) : Int) ≤ (n.toNat : Int) := by push_cast; rw [hcast]; exact hdsq
      exact_mod_cast this
    have hmn : m ≤ n.toNat := le_trans (Nat.le_mul_of_pos_left m (by omega)) hmsq
    have hmdvd : m ∣ n.toNat := by
      have : (m : Int) ∣ (n.toNat : Int) := by rw [hcast]; exact hdvd
      exact_mod_cast this
    exact h m hmn hm2 hmsq (Nat.mod_eq_zero_of_dvd hmdvd)
  · intro h d hdn hd2 hdsq hmod
    have hdvd : (d : Int) ∣ n := by
      rw [← hcast]
      exact_mod_cast Nat.dvd_of_mod_eq_zero hmod
    have hdsq' : (d : Int) * d ≤ n := by
      rw [← hcast]
      exact_mod_cast hdsq
    exact h d (by exact_mod_cast hd2) hdsq' hdvd

/-- `naiveTrialDivision` in the spec's `sqrt` phrasing: `true` iff no `d`
with `2 ≤ d ≤ sqrt n` divides `n`. -/
lemma naiveTrialDivision_sqrt_iff (n : Int) :
    naiveTrialDivision n = true ↔
      ∀ d : Nat, 2 ≤ d → d ≤ Nat.sqrt n.toNat → ¬ d ∣ n.toNat := by
  rw [naiveTrialDivision, decide_eq_true_iff]
  constructor
  · intro h d hd2 hds hdvd
    have hsq : d * d ≤ n.toNat := Nat.le_sqrt.mp hds
    have hdn : d ≤ n.toNat := le_trans (Nat.le_mul_of_pos_left d (by omega)) hsq
    exact h d hdn hd2 hsq (Nat.mod_eq_zero_of_dvd hdvd)
  · intro h d hdn hd2 hsq hmod
    exact h d hd2 (Nat.le_sqrt.mpr hsq) (Nat.dvd_of_mod_eq_zero hmod)

/-- The loop runs at most `(n + 1) / 6 + 1` iterations from any start `i`:
each iteration moves `i` up by 6 below the bound `n`. -/
lemma trialLoopIters_le :
    ∀ k : Nat, ∀ n i : Int, (n + 6 - i).toNat = k →
      trialLoopIters n i ≤ (n + 6 - i).toNat / 6 + 1 := by
  intro k
  induction k using Nat.strong_induction_on with
  | _ k IH =>
    intro n i hk
    rw [trialLoopIters]
    split
    · rename_i hguard
      have hin : i ≤ n := by
        rcases le_or_lt 1 i with h1 | h1
        · nlinarith
        · have : (0:Int) ≤ i * i := mul_self_nonneg i
          omega
      split
      · omega
      · have := IH (n + 6 - (i + 6)).toNat (by omega) n (i + 6) rfl
        omega
    · omega

/-- The checked loop never fails and computes the same result as the
actual loop: every divisor it reduces modulo is at least 5. -/
lemma trialLoopChecked_eq :
    ∀ k : Nat, ∀ n i : Int, (n + 6 - i).toNat = k → 5 ≤ i →
      trialLoopChecked n i = some (trialLoop n i) := by
  intro k
  induction k using Nat.strong_induction_on with
  | _ k IH =>
    intro n i hk hi5
    rw [trialLoopChecked, trialLoop]
    split
    · rename_i hguard
      have h1 : i ≠ 0 := by omega
      have h2 : i + 2 ≠ 0 := by omega
      simp only [emodChecked, if_neg h1, if_neg h2]
      split
      · rfl
      · have hin : i ≤ n := by nlinarith
        exact IH (n + 6 - (i + 6)).toNat (by omega) n (i + 6) rfl (by omega)
    · rfl

/-- C1: for every integer `n`, `is_prime n` returns `true` iff `n` is
prime, i.e. `n` is a natural number greater than 1 whose only positive
divisors are 1 and `n` itself. -/
theorem is_prime_correct (n : Int) :
    is_prime n = true ↔
      1 < n ∧ ∀ d : Int, 0 < d → d ∣ n → d = 1 ∨ d = n := by
  unfold is_prime
  split_ifs with h1 h3 hdd
  · apply iff_of_false (by simp)
    rintro ⟨hn, -⟩
    omega
  · have hn : n = 2 ∨ n = 3 := by omega
    apply iff_of_true rfl
    rcases hn with rfl | rfl
    · refine ⟨by norm_num, ?_⟩
      intro d hd0 hdvd
      have hdn : d ≤ 2 := Int.le_of_dvd (by norm_num) hdvd
      interval_cases d
      · exact Or.inl rfl
      · exact Or.inr rfl
    · refine ⟨by norm_num, ?_⟩
      intro d hd0 hdvd
      have hdn : d ≤ 3 := Int.le_of_dvd (by norm_num) hdvd
      interval_cases d
      · exact Or.inl rfl
      · exact absurd hdvd (by decide)
      · exact Or.inr rfl
  · apply iff_of_false (by simp)
    rintro ⟨hn, hdiv⟩
    rcases hdd with h | h
    · rcases hdiv 2 (by norm_num) (Int.dvd_of_emod_eq_zero h) with h' | h' <;> omega
    · rcases hdiv 3 (by norm_num) (Int.dvd_of_emod_eq_zero h) with h' | h' <;> omega
  · push_neg at hdd
    have h2 : ¬ (2:Int) ∣ n := fun hdvd => hdd.1 (Int.emod_eq_zero_of_dvd hdvd)
    have h3' : ¬ (3:Int) ∣ n := fun hdvd => hdd.2 (Int.emod_eq_zero_of_dvd hdvd)
    rw [trialLoop_true_iff (by omega) h2 h3']
    constructor
    · intro hnd
      refine ⟨by omega, ?_⟩
      intro d hd0 hdvd
      have hdn : d ≤ n := Int.le_of_dvd (by omega) hdvd
      rcases eq_or_lt_of_le hdn with heq | hlt
      · exact Or.inr heq
      · rcases (by omega : d = 1 ∨ 2 ≤ d) with h' | h'
        · exact Or.inl h'
        · exact absurd hdvd (hnd d h' hlt)
    · rintro ⟨hn1, hdiv⟩ d hd2 hdn hdvd
      rcases hdiv d (by omega) hdvd with h' | h' <;> omega

/-- C2: the driver iterates 1 through 19 in ascending order and prints
exactly one line per value, classifying 2, 3, 5, 7, 11, 13, 17, 19 as
prime and the rest as not prime, in order. -/
theorem driver_output :
    driverLines =
      ["1 is not prime", "2 is prime", "3 is prime", "4 is not prime",
       "5 is prime", "6 is not prime", "7 is prime", "8 is not prime",
       "9 is not prime", "10 is not prime", "11 is prime", "12 is not prime",
       "13 is prime", "14 is not prime", "15 is not prime", "16 is not prime",
       "17 is prime", "18 is not prime", "19 is prime"] := by
  have e2 : is_prime 2 = true := by simp [is_prime]
  have e3 : is_prime 3 = true := by simp [is_prime]
  have e5 : is_prime 5 = true := by simp [is_prime, trialLoop]
  have e7 : is_prime 7 = true := by simp [is_prime, trialLoop]
  have e11 : is_prime 11 = true := by simp [is_prime, trialLoop]
  have e13 : is_prime 13 = true := by simp [is_prime, trialLoop]
  have e17 : is_prime 17 = true := by simp [is_prime, trialLoop]
  have e19 : is_prime 19 = true := by simp [is_prime, trialLoop]
  have o1 : is_prime 1 = false := by simp [is_prime]
  have o4 : is_prime 4 = false := by simp [is_prime]
  have o6 : is_prime 6 = false := by simp [is_prime]
  have o8 : is_prime 8 = false := by simp [is_prime]
  have o9 : is_prime 9 = false := by simp [is_prime]
  have o10 : is_prime 10 = false := by simp [is_prime]
  have o12 : is_prime 12 = false := by simp [is_prime]
  have o14 : is_prime 14 = false := by simp [is_prime]
  have o15 : is_prime 15 = false := by simp [is_prime]
  have o16 : is_prime 16 = false := by simp [is_prime]
  have o18 : is_prime 18 = false := by simp [is_prime]
  simp [driverLines, List.range',
    e2, e3, e5, e7, e11, e13, e17, e19,
    o1, o4, o6, o8, o9, o10, o12, o14, o15, o16, o18]
  refine ⟨rfl, rfl, rfl, rfl, rfl, rfl, rfl, rfl, rfl, rfl, rfl, rfl, rfl,
    rfl, rfl, rfl, rfl, rfl, rfl⟩

/-- C3: `is_prime n` returns `false` for every `n ≤ 1`, including 0, 1
and all negative integers. -/
theorem is_prime_nonpos (n : Int) (h : n ≤ 1) : is_prime n = false := by
  simp [is_prime, h]

/-- Witness for C3 at `n = -5`. -/
theorem is_prime_nonpos_spot : (-5 : Int) ≤ 1 ∧ is_prime (-5) = false :=
  ⟨by decide, is_prime_nonpos (-5) (by decide)⟩

/-- C4: `is_prime 2` and `is_prime 3` both return `true`. -/
theorem is_prime_two_three : is_prime 2 = true ∧ is_prime 3 = true := by decide

/-- C5: for every `n > 3` divisible by 2 or 3 the result is `false`, and
it is decided before any trial-division loop iteration runs: the result
is `false` whatever function `L` is substituted for the loop, and
`is_prime` is the instance of this scheme at `L = trialLoop`. -/
theorem is_prime_div23 (L : Int → Int → Bool) (n : Int) (hn : 3 < n)
    (h : (2:Int) ∣ n ∨ (3:Int) ∣ n) :
    is_primeWithLoop L n = false ∧ is_prime n = is_primeWithLoop trialLoop n := by
  refine ⟨?_, rfl⟩
  have hdd : n % 2 = 0 ∨ n % 3 = 0 := by
    rcases h with h | h
    · exact Or.inl (Int.emod_eq_zero_of_dvd h)
    · exact Or.inr (Int.emod_eq_zero_of_dvd h)
  rw [is_primeWithLoop, if_neg (by omega : ¬ n ≤ 1),
    if_neg (by omega : ¬ n ≤ 3), if_pos hdd]

/-- Witness for C5 at `n = 4`, with an adversarial loop that always
answers `true`. -/
theorem is_prime_div23_spot :
    3 < (4:Int) ∧ ((2:Int) ∣ 4 ∨ (3:Int) ∣ 4) ∧
      (is_primeWithLoop (fun _ _ => true) 4 = false ∧
        is_prime 4 = is_primeWithLoop trialLoop 4) :=
  ⟨by decide, Or.inl (by decide),
    is_prime_div23 (fun _ _ => true) 4 (by decide) (Or.inl (by decide))⟩

/-- C6: for `n > 3` not divisible by 2 or 3, the 6k±1 wheel loop returns
the same boolean as naive trial division over all `2 ≤ d ≤ sqrt n`, and
returns `false` exactly when some such divisor divides `n` evenly. -/
theorem trialLoop_refines_naive (n : Int) (hn : 3 < n)
    (h2 : ¬ (2:Int) ∣ n) (h3 : ¬ (3:Int) ∣ n) :
    trialLoop n 5 = naiveTrialDivision n ∧
      (trialLoop n 5 = false ↔ ∃ d : Int, 2 ≤ d ∧ d * d ≤ n ∧ d ∣ n) := by
  have hiff : trialLoop n 5 = true ↔ naiveTrialDivision n = true := by
    rw [trialLoop_true_iff hn h2 h3, naiveTrialDivision_true_iff (by omega)]
    constructor
    · intro h d hd2 hdsq hdvd
      have hdn : d < n := by nlinarith
      exact h d hd2 hdn hdvd
    · exact no_small_div_imp (by omega)
  constructor
  · rcases Bool.eq_false_or_eq_true (trialLoop n 5) with h | h <;>
      rcases Bool.eq_false_or_eq_true (naiveTrialDivision n) with h' | h' <;>
      simp_all
  · constructor
    · intro hfalse
      by_contra hnex
      push_neg at hnex
      have htrue : trialLoop n 5 = true :=
        (trialLoop_true_iff hn h2 h3).mpr (no_small_div_imp (by omega) hnex)
      rw [hfalse] at htrue
      exact absurd htrue (by simp)
    · rintro ⟨d, hd2, hdsq, hdvd⟩
      by_contra hne
      rw [Bool.not_eq_false] at hne
      have hnd := (trialLoop_true_iff hn h2 h3).mp hne
      have hdn : d < n := by nlinarith
      exact absurd hdvd (hnd d hd2 hdn)

/-- Witness for C6 at `n = 25` (odd, coprime to 3, composite). -/
theorem trialLoop_refines_naive_spot :
    3 < (25:Int) ∧ ¬ (2:Int) ∣ 25 ∧ ¬ (3:Int) ∣ 25 ∧
      (trialLoop 25 5 = naiveTrialDivision 25 ∧
        (trialLoop 25 5 = false ↔ ∃ d : Int, 2 ≤ d ∧ d * d ≤ 25 ∧ d ∣ 25)) :=
  ⟨by decide, by decide, by decide,
    trialLoop_refines_naive 25 (by decide) (by decide) (by decide)⟩

/-- C7: `is_prime` terminates on every integer: the loop started at
`i = 5` executes at most `(n + 1) / 6 + 1` iterations. -/
theorem trialLoop_terminates (n : Int) :
    trialLoopIters n 5 ≤ (n + 1).toNat / 6 + 1 := by
  have h := trialLoopIters_le (n + 6 - 5).toNat n 5 rfl
  omega

/-- C8: `is_prime` is total and never raises: the instrumented version in
which every `%` fails on a zero divisor always succeeds, returning
exactly `is_prime n`. -/
theorem is_prime_total (n : Int) : is_primeChecked n = some (is_prime n) := by
  rw [is_primeChecked, is_prime]
  by_cases h1 : n ≤ 1
  · rw [if_pos h1, if_pos h1]
  · rw [if_neg h1, if_neg h1]
    by_cases h3 : n ≤ 3
    · rw [if_pos h3, if_pos h3]
    · rw [if_neg h3, if_neg h3]
      simp only [emodChecked, if_neg (by norm_num : (2:Int) ≠ 0),
        if_neg (by norm_num : (3:Int) ≠ 0)]
      by_cases hd : n % 2 = 0 ∨ n % 3 = 0
      · rw [if_pos hd, if_pos hd]
      · rw [if_neg hd, if_neg hd]
        exact trialLoopChecked_eq (n + 6 - 5).toNat n 5 rfl (by norm_num)

/-- C9: `is_prime` is deterministic: two calls on equal inputs yield
equal results (the embedding as a pure function captures absence of
side effects). -/
theorem is_prime_deterministic (n m : Int) (h : n = m) :
    is_prime n = is_prime m := by rw [h]

/-- Witness for C9 at `n = 7`. -/
theorem is_prime_deterministic_spot : (7:Int) = 7 ∧ is_prime 7 = is_prime 7 :=
  ⟨rfl, is_prime_deterministic 7 7 rfl⟩

/-- C10: loop invariant: for `n > 3` not divisible by 2 or 3, whenever
the guard is evaluated at `i`, `i ≡ 5 [ZMOD 6]` and `n` has no divisor
`d` with `2 ≤ d < i`; hence if the loop returns `true`, `n` has no
divisor `d` with `2 ≤ d` and `d * d ≤ n`. -/
theorem loop_invariant (n : Int) (hn : 3 < n)
    (h2 : ¬ (2:Int) ∣ n) (h3 : ¬ (3:Int) ∣ n) :
    (∀ i : Int, LoopReaches n i →
        i % 6 = 5 ∧ ∀ d : Int, 2 ≤ d → d < i → ¬ d ∣ n) ∧
      (trialLoop n 5 = true → ∀ d : Int, 2 ≤ d → d * d ≤ n → ¬ d ∣ n) := by
  constructor
  · intro i hreach
    induction hreach with
    | start => exact ⟨by norm_num, no_div_below_five h2 h3⟩
    | step hr hguard hndi hndi2 ih =>
        exact ⟨by omega, below_extend h2 h3 ih.1 ih.2 hndi hndi2⟩
  · intro htrue
    exact trialLoop_true_no_div h2 h3 _ 5 rfl (by norm_num) (by norm_num)
      (no_div_below_five h2 h3) htrue

/-- Witness for C10 at `n = 5`. -/
theorem loop_invariant_spot :
    3 < (5:Int) ∧ ¬ (2:Int) ∣ 5 ∧ ¬ (3:Int) ∣ 5 ∧
      ((∀ i : Int, LoopReaches 5 i →
          i % 6 = 5 ∧ ∀ d : Int, 2 ≤ d → d < i → ¬ d ∣ 5) ∧
        (trialLoop 5 5 = true → ∀ d : Int, 2 ≤ d → d * d ≤ 5 → ¬ d ∣ 5)) :=
  ⟨by decide, by decide, by decide,
    loop_invariant 5 (by decide) (by decide) (by decide)⟩

end Sample
